import Mathlib

/-!
# incbot-go: command dispatch and permission gating

A shallow embedding of `main.go`.  Go strings are byte sequences (`len` counts
bytes, `strings.Split` works on bytes), so a string is a list of byte values.
Calls on the chat session that change the outside world are recorded, in
order, as a trace of `Call`s; calls that fetch from the platform are fields of
`Session`, each returning a value or an error.
-/

namespace Incbot

/-- A Go string: its bytes, in order. -/
abbrev GoString := List Nat

/-- The UTF-8 bytes of a string literal of the source. -/
def bytes (s : String) : GoString := s.toUTF8.data.toList.map UInt8.toNat

/-- The byte of the separator `" "`. -/
def space : Nat := 32

/-! ## Data model -/

/-- The `Roles` field of `Config`. -/
structure RolePolicy where
  Admins : List GoString
  Allowed : List GoString
deriving DecidableEq, Repr

/-- The bot configuration, `type Config struct`. -/
structure Config where
  Token : GoString
  BotChannels : List GoString
  CmdPrefix : GoString
  Roles : RolePolicy
deriving DecidableEq, Repr

/-- The part of `discordgo.User` the program reads. -/
structure User where
  ID : GoString
  Username : GoString
deriving DecidableEq, Repr

/-- The part of `discordgo.Member` the program reads. -/
structure Member where
  GuildID : GoString
  Nick : GoString
  User : User
  Roles : List GoString
deriving DecidableEq, Repr

/-- The part of `discordgo.Role` the program reads. -/
structure Role where
  ID : GoString
  Name : GoString
deriving DecidableEq, Repr

/-- The part of `discordgo.Guild` the program reads. -/
structure Guild where
  Roles : List Role
deriving DecidableEq, Repr

/-- The part of `discordgo.MessageCreate` the program reads. -/
structure MessageCreate where
  ID : GoString
  ChannelID : GoString
  GuildID : GoString
  Content : GoString
  Author : User
deriving DecidableEq, Repr

/-- A Go `error`: one returned by a platform call, or one built by
`errors.New` from a message. -/
inductive GoError where
  | platform (msg : GoString)
  | errorsNew (msg : GoString)
deriving DecidableEq, Repr

/-- The method `Error()` of a Go `error`. -/
def GoError.Error : GoError → GoString
  | GoError.platform msg => msg
  | GoError.errorsNew msg => msg

/-- The fetching calls of `*discordgo.Session` the program makes. -/
structure Session where
  User : GoString → Except GoError User
  GuildMember : GoString → GoString → Except GoError Member
  Guild : GoString → Except GoError Guild
  GuildRoles : GoString → Except GoError (List Role)

/-- The effectful calls the program makes, recorded in program order. -/
inductive Call where
  | MessageReactionAdd (channelID messageID emoji : GoString)
  | ChannelMessageSend (channelID content : GoString)
  | ChannelMessageDelete (channelID messageID : GoString)
  | GuildMemberRoleAdd (guildID userID roleID : GoString)
  | GuildMemberRoleRemove (guildID userID roleID : GoString)
  | Sleep (seconds : Nat)
  | Save (cfg : Config)
deriving DecidableEq, Repr

/-- The `CmdContext` struct; `session` is passed beside it. -/
structure CmdContext where
  params : List GoString
  msgcontext : MessageCreate
  origin : Member

/-- What a handler leaves behind: its two return values, the calls it made and
the global `CONFIG` after it. -/
structure CmdResult where
  err : Option GoError
  output : GoString
  calls : List Call
  config : Config
deriving DecidableEq, Repr

/-! ## Library functions -/

/-- The function `strings.HasPrefix`. -/
def HasPrefix (s pfx : GoString) : Bool := pfx.isPrefixOf s

/-- The function `strings.Split(s, sep)` for a separator of one byte: the
pieces between the occurrences of the separator, always at least one. -/
def Split (s : GoString) (sep : Nat) : List GoString :=
  match s with
  | [] => [[]]
  | c :: rest =>
    if c = sep then [] :: Split rest sep
    else
      match Split rest sep with
      | [] => [[c]]
      | piece :: more => (c :: piece) :: more

/-- The slice expression `s[n:]`, which is out of range when `n > len(s)`. -/
def sliceFrom (s : GoString) (n : Nat) : Option GoString :=
  if n ≤ s.length then some (s.drop n) else none

/-- The Go constant `CmdNotFoundError`, split at its `%s`. -/
def CmdNotFoundError : GoString × GoString := (bytes "Command ", bytes " not found!")

/-- The reaction `"❌"`. -/
def crossMark : GoString := bytes "❌"

/-- The reaction `"✅"`. -/
def checkMark : GoString := bytes "✅"

/-- The text `"⚠️ "` followed by a backquote, which opens an error reply. -/
def warnOpen : GoString := bytes "⚠️ `"

/-- The closing backquote of an error reply. -/
def warnClose : GoString := bytes "`"

/-! ## Parsing -/

/-- The function `getCommand`: `strings.Split(input, " ")`, then
`split[0][len(CONFIG.CmdPrefix):]`; `none` when the index or the slice is out
of range. -/
def getCommand (cfg : Config) (input : GoString) : Option GoString :=
  match Split input space with
  | [] => none
  | first :: _ => sliceFrom first cfg.CmdPrefix.length

/-- The function `getParams`. -/
def getParams (input : GoString) : List GoString := Split input space

/-- Lines 131-134 of `onCommand`: the parameter list built for the handler
from the message content and the command token. -/
def buildParams (content cmd : GoString) : Option (List GoString) :=
  if cmd.length + 2 < content.length then
    (sliceFrom content (cmd.length + 2)).map getParams
  else some []

/-! ## Permission predicates and role lookup -/

/-- The function `canFind`. -/
def canFind (searchItem : GoString) : List GoString → Bool
  | [] => false
  | n :: rest => if searchItem = n then true else canFind searchItem rest

/-- The inner loop of `canFindAny`, for one element `n` of `arr`. -/
def canFindAnyInner (n : GoString) : List GoString → Bool
  | [] => false
  | searchItem :: rest => if searchItem = n then true else canFindAnyInner n rest

/-- The function `canFindAny`. -/
def canFindAny (searchItems : List GoString) : List GoString → Bool
  | [] => false
  | n :: rest => if canFindAnyInner n searchItems then true else canFindAny searchItems rest

/-- The function `findRoleByName`; a nil pointer is `none`. -/
def findRoleByName (searchItem : GoString) : List Role → Option Role
  | [] => none
  | n :: rest => if searchItem = n.Name then some n else findRoleByName searchItem rest

/-- The function `findRoleById`; a nil pointer is `none`. -/
def findRoleById (searchItem : GoString) : List Role → Option Role
  | [] => none
  | n :: rest => if searchItem = n.ID then some n else findRoleById searchItem rest

/-- The function `getDisplayName`. -/
def getDisplayName (member : Member) : GoString :=
  if member.Nick = [] then member.User.Username else member.Nick

/-! ## Error messages -/

/-- The message `"I'm sorry %s, I'm afraid I can't do that."`. -/
def deniedMsg (name : GoString) : GoString :=
  bytes "I'm sorry " ++ name ++ bytes ", I'm afraid I can't do that."

/-- The message `"Sorry %s, I could not find the role %s!"`. -/
def roleNotFoundMsg (name arg : GoString) : GoString :=
  bytes "Sorry " ++ name ++ bytes ", I could not find the role " ++ arg ++ bytes "!"

/-- The message `"Sorry %s, I could not find the role id %s!"`. -/
def roleIdNotFoundMsg (name role : GoString) : GoString :=
  bytes "Sorry " ++ name ++ bytes ", I could not find the role id " ++ role ++ bytes "!"

/-- The message of the refusal to register an admin role. -/
def dangerousMsg (name : GoString) : GoString :=
  bytes "Sorry " ++ name ++
    bytes ", adding an admin role as settable is a dangerous operation; and thus is not permitted."

/-! ## Handlers -/

/-- The type `Command`, with the session and the global `CONFIG` made
explicit. -/
abbrev Command := Session → Config → CmdContext → CmdResult

/-- The loop of `cmdRoles` over `context.params`: the error it returns, if
any, and the calls made so far. -/
def cmdRolesLoop (cfg : Config) (context : CmdContext) (roles : List Role) :
    List GoString → List Call → Option GoError × List Call
  | [], calls => (none, calls)
  | arg :: rest, calls =>
    match findRoleByName arg roles with
    | some role =>
      if canFind role.ID cfg.Roles.Allowed then
        let origin := context.origin
        if !canFind role.ID origin.Roles then
          cmdRolesLoop cfg context roles rest
            (calls ++ [Call.GuildMemberRoleAdd context.msgcontext.GuildID origin.User.ID role.ID])
        else
          cmdRolesLoop cfg context roles rest
            (calls ++ [Call.GuildMemberRoleRemove context.msgcontext.GuildID origin.User.ID role.ID])
      else
        (some (GoError.errorsNew (deniedMsg (getDisplayName context.origin))), calls)
    | none =>
      (some (GoError.errorsNew (roleNotFoundMsg (getDisplayName context.origin) arg)), calls)

/-- The handler `cmdRoles`. -/
def cmdRoles : Command := fun session cfg context =>
  match session.Guild context.msgcontext.GuildID with
  | .error err => { err := some err, output := [], calls := [], config := cfg }
  | .ok guild =>
    let roles := guild.Roles
    let r := cmdRolesLoop cfg context roles context.params []
    { err := r.1, output := [], calls := r.2, config := cfg }

/-- The loop of `cmdAdd` over `context.params`: the error it returns, if any,
and the calls made so far. -/
def cmdAddLoop (cfg : Config) (context : CmdContext) (roles : List Role) :
    List GoString → List Call → Option GoError × List Call
  | [], calls => (none, calls)
  | role :: rest, calls =>
    if (findRoleById role roles).isSome then
      if canFind role cfg.Roles.Admins then
        (some (GoError.errorsNew (dangerousMsg (getDisplayName context.origin))),
          calls ++ [Call.MessageReactionAdd context.msgcontext.ChannelID context.msgcontext.ID
            crossMark])
      else cmdAddLoop cfg context roles rest calls
    else
      (some (GoError.errorsNew (roleIdNotFoundMsg (getDisplayName context.origin) role)),
        calls ++ [Call.MessageReactionAdd context.msgcontext.ChannelID context.msgcontext.ID
          crossMark])

/-- The configuration after `CONFIG.Roles.Allowed = append(CONFIG.Roles.Allowed, params...)`. -/
def appendAllowed (cfg : Config) (params : List GoString) : Config :=
  { cfg with Roles := { cfg.Roles with Allowed := cfg.Roles.Allowed ++ params } }

/-- The handler `cmdAdd`. -/
def cmdAdd : Command := fun session cfg context =>
  if canFindAny context.origin.Roles cfg.Roles.Admins then
    match session.GuildRoles context.msgcontext.GuildID with
    | .error err => { err := some err, output := [], calls := [], config := cfg }
    | .ok roles =>
      match cmdAddLoop cfg context roles context.params [] with
      | (some err, calls) => { err := some err, output := [], calls := calls, config := cfg }
      | (none, calls) =>
        let cfg2 := appendAllowed cfg context.params
        { err := none, output := [], calls := calls ++ [Call.Save cfg2], config := cfg2 }
  else
    { err := some (GoError.errorsNew (deniedMsg (getDisplayName context.origin))),
      output := [], calls := [], config := cfg }

/-- The loop of `cmdList` over the guild roles, extending `output`. -/
def cmdListLoop (cfg : Config) : List Role → GoString → GoString
  | [], output => output
  | role :: rest, output =>
    if canFind role.ID cfg.Roles.Allowed then
      cmdListLoop cfg rest (output ++ (role.Name ++ bytes "\n"))
    else cmdListLoop cfg rest output

/-- The handler `cmdList`. -/
def cmdList : Command := fun session cfg context =>
  match session.GuildRoles context.origin.GuildID with
  | .error err => { err := some err, output := [], calls := [], config := cfg }
  | .ok roles =>
    let output := cmdListLoop cfg roles (bytes "```\n")
    { err := none, output := output ++ bytes "```", calls := [], config := cfg }

/-- The handler `cmdHelp`. -/
def cmdHelp : Command := fun _ cfg _ =>
  { err := none,
    output := bytes "```\n" ++ cfg.CmdPrefix ++
      bytes "role/pronoun/neuro name (name...)     - Set cosmetic roles for pronouns and neurodiverse traits.\n" ++
      cfg.CmdPrefix ++
      bytes "listroles                             - List the available roles\n" ++
      bytes "```",
    calls := [], config := cfg }

/-- The registry `CmdMap`, as the key/value pairs of the map literal. -/
def CmdMap : List (GoString × Command) :=
  [ (bytes "role", cmdRoles),
    (bytes "pronoun", cmdRoles),
    (bytes "neuro", cmdRoles),
    (bytes "addrole", cmdAdd),
    (bytes "help", cmdHelp),
    (bytes "listroles", cmdList) ]

/-- The map index `m[key]` with its `ok` flag: `none` when the key is absent. -/
def mapIndex (m : List (GoString × Command)) (key : GoString) : Option Command :=
  match m with
  | [] => none
  | (k, v) :: rest => if key = k then some v else mapIndex rest key

/-! ## Dispatcher -/

/-- What one run of `onCommand` leaves behind: the calls made, the global
`CONFIG`, and (a ghost field) the registry key whose handler it ran. -/
structure Outcome where
  calls : List Call
  config : Config
  handler : Option GoString
deriving DecidableEq, Repr

/-- The event handler `onCommand`.  `toLower` is `strings.ToLower`, `discord`
the global session.  `none` is a run-time panic (a slice out of range). -/
def onCommand (toLower : GoString → GoString) (discord session : Session) (cfg : Config)
    (message : MessageCreate) : Option Outcome :=
  match discord.User (bytes "@me") with
  | .error _ => some { calls := [], config := cfg, handler := none }
  | .ok meUser =>
    if message.Author.ID ≠ meUser.ID then
      match session.GuildMember message.GuildID message.Author.ID with
      | .error _ => some { calls := [], config := cfg, handler := none }
      | .ok member =>
        if HasPrefix message.Content cfg.CmdPrefix then
          if !canFind message.ChannelID cfg.BotChannels then
            some { calls := [Call.MessageReactionAdd message.ChannelID message.ID crossMark,
                             Call.Sleep 2,
                             Call.ChannelMessageDelete message.ChannelID message.ID],
                   config := cfg, handler := none }
          else
            match getCommand cfg message.Content with
            | none => none
            | some cmd =>
              match buildParams message.Content cmd with
              | none => none
              | some params =>
                match mapIndex CmdMap (toLower cmd) with
                | some command =>
                  let ctx : CmdContext := { params := params, msgcontext := message, origin := member }
                  let r := command session cfg ctx
                  match r.err with
                  | some err =>
                    some { calls := r.calls ++
                             [Call.ChannelMessageSend message.ChannelID
                                (warnOpen ++ err.Error ++ warnClose),
                              Call.MessageReactionAdd message.ChannelID message.ID crossMark],
                           config := r.config, handler := some (toLower cmd) }
                  | none =>
                    some { calls := r.calls ++
                             (if r.output ≠ [] then
                                [Call.ChannelMessageSend message.ChannelID r.output] else []) ++
                             [Call.MessageReactionAdd message.ChannelID message.ID checkMark],
                           config := r.config, handler := some (toLower cmd) }
                | none =>
                  some { calls :=
                           [Call.ChannelMessageSend message.ChannelID
                              (warnOpen ++ CmdNotFoundError.1 ++ cmd ++ CmdNotFoundError.2 ++ warnClose),
                            Call.MessageReactionAdd message.ChannelID message.ID crossMark],
                         config := cfg, handler := none }
        else some { calls := [], config := cfg, handler := none }
    else some { calls := [], config := cfg, handler := none }

/-! ## The platform's side of role membership -/

/-- Modelled from the spec: the external platform's "add/remove a role from a
member" (section 6), which is not code of this repository.  A member's roles
are a set of ids: adding a role the member holds, or removing one the member
lacks, changes nothing.  `roles` is the membership of user `userID` in guild
`guildID`; calls that target another guild or user leave it as it is. -/
def applyCall (guildID userID : GoString) (roles : List GoString) : Call → List GoString
  | Call.GuildMemberRoleAdd g u r =>
    if g = guildID ∧ u = userID then (if r ∈ roles then roles else roles ++ [r]) else roles
  | Call.GuildMemberRoleRemove g u r =>
    if g = guildID ∧ u = userID then roles.filter (fun x => x ≠ r) else roles
  | _ => roles

/-- The membership after a trace of calls, applied in order. -/
def applyCalls (guildID userID : GoString) (roles : List GoString) (calls : List Call) :
    List GoString :=
  calls.foldl (applyCall guildID userID) roles

/-! ## Definitions used to state the properties -/

/-- The configuration invariant: no id of the allow-list is an admin role id. -/
def allowedAvoidsAdmins (cfg : Config) : Prop :=
  ∀ x, x ∈ cfg.Roles.Allowed → x ∉ cfg.Roles.Admins

instance (cfg : Config) : Decidable (allowedAvoidsAdmins cfg) := by
  unfold allowedAvoidsAdmins; infer_instance

/-- Whether an argument resolves, by exact name match, to a guild role whose
id is in the allow-list. -/
def resolvesAllowed (cfg : Config) (roles : List Role) (arg : GoString) : Bool :=
  match findRoleByName arg roles with
  | some role => decide (role.ID ∈ cfg.Roles.Allowed)
  | none => false

/-- The call `cmdRoles` makes for an argument that resolves to `role`, given
the invoker: a removal if the invoker holds the role, an addition if not. -/
def toggleCall (context : CmdContext) (role : Role) : Call :=
  if role.ID ∈ context.origin.Roles then
    Call.GuildMemberRoleRemove context.msgcontext.GuildID context.origin.User.ID role.ID
  else
    Call.GuildMemberRoleAdd context.msgcontext.GuildID context.origin.User.ID role.ID

/-- The invoker's membership after one run of `cmdRoles`, as the platform
leaves it. -/
def membershipAfter (session : Session) (cfg : Config) (message : MessageCreate)
    (origin : Member) (params : List GoString) : List GoString :=
  applyCalls message.GuildID origin.User.ID origin.Roles
    (cmdRoles session cfg { params := params, msgcontext := message, origin := origin }).calls

/-- One toggle of the role `roleID` on a membership: the role is removed if
the member holds it and added if not. -/
def toggleRole (roles : List GoString) (roleID : GoString) : List GoString :=
  if roleID ∈ roles then roles.filter (fun x => x ≠ roleID) else roles ++ [roleID]

/-- Toggling the given roles one after another, each toggle applied to the
membership the previous one left. -/
def toggleInTurn : List GoString → List GoString → List GoString
  | roles, [] => roles
  | roles, roleID :: rest => toggleInTurn (toggleRole roles roleID) rest

/-- The id of the guild role an argument of `cmdRoles` resolves to, if any. -/
def resolvedId (roles : List Role) (arg : GoString) : Option GoString :=
  (findRoleByName arg roles).map (fun role => role.ID)

/-- The given lines, each followed by a line feed. -/
def joinLines : List GoString → GoString
  | [] => []
  | line :: rest => line ++ bytes "\n" ++ joinLines rest

/-- The bytes Go's `unicode.IsSpace` accepts among ASCII: tab, line feed,
vertical tab, form feed, carriage return and space. -/
def isWhitespace (b : Nat) : Bool :=
  b = 9 ∨ b = 10 ∨ b = 11 ∨ b = 12 ∨ b = 13 ∨ b = 32

/-- The spec's `extractCommand`: the first whitespace-delimited token of
`rawText` with `pfx` stripped from its start. -/
def specExtractCommand (rawText pfx : GoString) : GoString :=
  (rawText.takeWhile (fun b => !isWhitespace b)).drop pfx.length

/-- The spec's `extractParams`: empty when the raw text is no longer than
prefix, command token and one separator; otherwise the raw text without its
first `len(prefix) + len(commandToken) + 1` bytes, split on single spaces. -/
def specExtractParams (rawText commandToken pfx : GoString) : List GoString :=
  if rawText.length ≤ pfx.length + commandToken.length + 1 then []
  else Split (rawText.drop (pfx.length + commandToken.length + 1)) space

/-- The parameter list `onCommand` builds from a message: `getCommand`, then
lines 131-134. -/
def dispatchParams (cfg : Config) (content : GoString) : Option (List GoString) :=
  match getCommand cfg content with
  | none => none
  | some cmd => buildParams content cmd

/-! ## Concrete inputs -/

/-- A session whose fetches all succeed: the bot is user `bot`, every member
fetch returns `member`, and every guild has the roles `roles`. -/
def okSession (member : Member) (roles : List Role) : Session :=
  { User := fun _ => .ok { ID := bytes "bot", Username := bytes "incbot" },
    GuildMember := fun _ _ => .ok member,
    Guild := fun _ => .ok { Roles := roles },
    GuildRoles := fun _ => .ok roles }

/-- A session like `okSession` whose guild fetch fails. -/
def noGuildSession (member : Member) (roles : List Role) : Session :=
  { okSession member roles with Guild := fun _ => .error (GoError.platform (bytes "HTTP 500")) }

/-- A session like `okSession` whose member fetch fails. -/
def noMemberSession (member : Member) (roles : List Role) : Session :=
  { okSession member roles with
    GuildMember := fun _ _ => .error (GoError.platform (bytes "HTTP 500")) }

/-- A guild with an admin role `A` and three cosmetic roles. -/
def guildRoles : List Role :=
  [ { ID := bytes "A", Name := bytes "Admin" },
    { ID := bytes "B", Name := bytes "Neuro" },
    { ID := bytes "R1", Name := bytes "He/Him" },
    { ID := bytes "R2", Name := bytes "She/Her" } ]

/-- A configuration with prefix `!`, admin ids {A} and allow-list [R1]. -/
def sampleConfig : Config :=
  { Token := bytes "t", BotChannels := [bytes "bots"], CmdPrefix := bytes "!",
    Roles := { Admins := [bytes "A"], Allowed := [bytes "R1"] } }

/-- A member of guild `g` who holds the admin role. -/
def adminMember : Member :=
  { GuildID := bytes "g", Nick := bytes "Luna", User := { ID := bytes "u1", Username := bytes "luna" },
    Roles := [bytes "A"] }

/-- A member of guild `g` who holds no role. -/
def plainMember : Member :=
  { GuildID := bytes "g", Nick := [], User := { ID := bytes "u2", Username := bytes "kit" },
    Roles := [] }

/-- A message with the given content, sent by `author` in channel `bots` of
guild `g`. -/
def messageOf (author : User) (content : GoString) : MessageCreate :=
  { ID := bytes "m1", ChannelID := bytes "bots", GuildID := bytes "g", Content := content,
    Author := author }

/-- The context of a handler run by `member` with the given parameters. -/
def contextOf (member : Member) (params : List GoString) : CmdContext :=
  { params := params, msgcontext := messageOf member.User [], origin := member }

/-- The guild roles of the spec's `listroles` example. -/
def listExampleRoles : List Role :=
  [ { ID := bytes "R1", Name := bytes "He/Him" },
    { ID := bytes "R2", Name := bytes "She/Her" },
    { ID := bytes "R3", Name := bytes "Mod" } ]

/-- The function `strings.ToLower` on ASCII text: `A`-`Z` become `a`-`z`. -/
def asciiLower (s : GoString) : GoString :=
  s.map (fun b => if 65 ≤ b ∧ b ≤ 90 then b + 32 else b)

/-! ## Basic facts about the predicates -/

theorem canFind_iff (x : GoString) (arr : List GoString) : canFind x arr = true ↔ x ∈ arr := by
  induction arr with
  | nil => simp [canFind]
  | cons n rest ih =>
    by_cases h : x = n
    · simp [canFind, h]
    · simp [canFind, h, ih]

theorem canFind_false_iff (x : GoString) (arr : List GoString) :
    canFind x arr = false ↔ x ∉ arr := by
  rw [← canFind_iff]; simp

theorem canFindAnyInner_iff (n : GoString) (items : List GoString) :
    canFindAnyInner n items = true ↔ n ∈ items := by
  induction items with
  | nil => simp [canFindAnyInner]
  | cons s rest ih =>
    by_cases h : s = n
    · simp [canFindAnyInner, h]
    · have h2 : ¬ n = s := fun e => h e.symm
      simp [canFindAnyInner, h, h2, ih]

theorem canFindAny_iff (items arr : List GoString) :
    canFindAny items arr = true ↔ ∃ x, x ∈ items ∧ x ∈ arr := by
  induction arr with
  | nil => simp [canFindAny]
  | cons n rest ih =>
    by_cases h : canFindAnyInner n items = true
    · simp only [canFindAny, h, if_true, true_iff]
      exact ⟨n, (canFindAnyInner_iff n items).1 h, List.mem_cons_self n rest⟩
    · have hstep : canFindAny items (n :: rest) = canFindAny items rest := by
        simp [canFindAny, h]
      rw [hstep, ih]
      constructor
      · rintro ⟨x, hx, hr⟩
        exact ⟨x, hx, List.mem_cons_of_mem n hr⟩
      · rintro ⟨x, hx, hr⟩
        rcases List.mem_cons.1 hr with e | hr
        · subst e
          exact absurd ((canFindAnyInner_iff x items).2 hx) h
        · exact ⟨x, hx, hr⟩

theorem canFindAny_false_iff (items arr : List GoString) :
    canFindAny items arr = false ↔ ∀ x, x ∈ items → x ∉ arr := by
  rw [← Bool.not_eq_true, canFindAny_iff]
  constructor
  · intro h x hx hr
    exact h ⟨x, hx, hr⟩
  · rintro h ⟨x, hx, hr⟩
    exact h x hx hr

/-! ## Facts about `cmdAdd` -/

theorem cmdAddLoop_none (cfg : Config) (context : CmdContext) (roles : List Role)
    (ps : List GoString) (calls : List Call)
    (h : (cmdAddLoop cfg context roles ps calls).1 = none) :
    (∀ p, p ∈ ps → p ∉ cfg.Roles.Admins) ∧ (cmdAddLoop cfg context roles ps calls).2 = calls := by
  induction ps with
  | nil => simp [cmdAddLoop]
  | cons p rest ih =>
    by_cases hf : (findRoleById p roles).isSome = true
    · by_cases ha : canFind p cfg.Roles.Admins = true
      · simp [cmdAddLoop, hf, ha] at h
      · have hstep : cmdAddLoop cfg context roles (p :: rest) calls
            = cmdAddLoop cfg context roles rest calls := by
          simp [cmdAddLoop, hf, ha]
        rw [hstep] at h ⊢
        obtain ⟨h1, h2⟩ := ih h
        refine ⟨?_, h2⟩
        intro q hq
        rcases List.mem_cons.1 hq with e | hq
        · subst e
          exact fun hm => ha ((canFind_iff _ _).2 hm)
        · exact h1 q hq
    · simp [cmdAddLoop, hf] at h

theorem cmdAddLoop_dangerous (cfg : Config) (context : CmdContext) (roles : List Role)
    (pre post : List GoString) (a : GoString) (calls : List Call)
    (hpre : ∀ x, x ∈ pre → (findRoleById x roles).isSome = true)
    (ha : (findRoleById a roles).isSome = true) (hadm : a ∈ cfg.Roles.Admins) :
    (cmdAddLoop cfg context roles (pre ++ a :: post) calls).1
      = some (GoError.errorsNew (dangerousMsg (getDisplayName context.origin))) := by
  induction pre with
  | nil =>
    have hc : canFind a cfg.Roles.Admins = true := (canFind_iff _ _).2 hadm
    simp [cmdAddLoop, ha, hc]
  | cons p rest ih =>
    have hf : (findRoleById p roles).isSome = true := hpre p (List.mem_cons_self p rest)
    by_cases hc : canFind p cfg.Roles.Admins = true
    · simp [cmdAddLoop, hf, hc]
    · have hstep : cmdAddLoop cfg context roles (p :: rest ++ a :: post) calls
          = cmdAddLoop cfg context roles (rest ++ a :: post) calls := by
        simp [cmdAddLoop, hf, hc]
      rw [hstep]
      exact ih (fun x hx => hpre x (List.mem_cons_of_mem p hx))

theorem cmdAdd_config (session : Session) (cfg : Config) (context : CmdContext) :
    (cmdAdd session cfg context).config = cfg ∨
    ((cmdAdd session cfg context).err = none ∧
      (cmdAdd session cfg context).config = appendAllowed cfg context.params ∧
      ∀ p, p ∈ context.params → p ∉ cfg.Roles.Admins) := by
  unfold cmdAdd
  by_cases hadm : canFindAny context.origin.Roles cfg.Roles.Admins = true
  · simp only [hadm, if_true]
    cases hr : session.GuildRoles context.msgcontext.GuildID with
    | error e => exact Or.inl rfl
    | ok roles =>
      simp only []
      cases hl : cmdAddLoop cfg context roles context.params [] with
      | mk e calls =>
        cases e with
        | some e => exact Or.inl rfl
        | none =>
          refine Or.inr ⟨rfl, rfl, ?_⟩
          have h1 : (cmdAddLoop cfg context roles context.params []).1 = none := by rw [hl]
          exact (cmdAddLoop_none cfg context roles context.params [] h1).1
  · simp only [hadm]
    exact Or.inl rfl

theorem cmdAdd_success_config (session : Session) (cfg : Config) (context : CmdContext)
    (h : (cmdAdd session cfg context).err = none) :
    (cmdAdd session cfg context).config = appendAllowed cfg context.params ∧
      ∀ p, p ∈ context.params → p ∉ cfg.Roles.Admins := by
  revert h
  unfold cmdAdd
  by_cases hadm : canFindAny context.origin.Roles cfg.Roles.Admins = true
  · simp only [hadm, if_true]
    cases hr : session.GuildRoles context.msgcontext.GuildID with
    | error e => intro h; simp at h
    | ok roles =>
      simp only []
      cases hl : cmdAddLoop cfg context roles context.params [] with
      | mk e calls =>
        cases e with
        | some e => intro h; simp at h
        | none =>
          intro _
          refine ⟨rfl, ?_⟩
          have h1 : (cmdAddLoop cfg context roles context.params []).1 = none := by rw [hl]
          exact (cmdAddLoop_none cfg context roles context.params [] h1).1
  · simp only [hadm]
    intro h; simp at h

/-! ## C1: registering an admin role id -/

/-- C1 (as stated, refuted).  With admin ids {A}: a caller without an admin
role who passes [A] gets the permission-denied error; an admin who passes
[X, A], X being no role of the guild, gets the role-id-not-found error; and an
admin who passes [A] in a guild that has no role A gets the same.  None of the
three is the dangerous-operation error. -/
theorem cmdAdd_admin_id_other_errors :
    (bytes "A" ∈ (contextOf plainMember [bytes "A"]).params ∧
      bytes "A" ∈ sampleConfig.Roles.Admins ∧
      (cmdAdd (okSession plainMember guildRoles) sampleConfig
          (contextOf plainMember [bytes "A"])).err
        = some (GoError.errorsNew (deniedMsg (bytes "kit"))) ∧
      deniedMsg (bytes "kit") ≠ dangerousMsg (bytes "kit")) ∧
    (bytes "A" ∈ (contextOf adminMember [bytes "X", bytes "A"]).params ∧
      (cmdAdd (okSession adminMember guildRoles) sampleConfig
          (contextOf adminMember [bytes "X", bytes "A"])).err
        = some (GoError.errorsNew (roleIdNotFoundMsg (bytes "Luna") (bytes "X"))) ∧
      roleIdNotFoundMsg (bytes "Luna") (bytes "X") ≠ dangerousMsg (bytes "Luna")) ∧
    (cmdAdd (okSession adminMember []) sampleConfig (contextOf adminMember [bytes "A"])).err
        = some (GoError.errorsNew (roleIdNotFoundMsg (bytes "Luna") (bytes "A"))) := by
  decide

/-- C1 (amended).  If some argument of `cmdAdd` is an admin role id, the
handler returns an error and leaves the configuration, and so the allow-list,
exactly as it was, for every invoker, session and argument list.  The error is
the dangerous-operation error whenever the invoker holds an admin role, the
guild roles are fetched, and that argument and every argument before it are
ids of guild roles. -/
theorem cmdAdd_admin_id_rejected (session : Session) (cfg : Config) (context : CmdContext)
    (a : GoString) (hmem : a ∈ context.params) (hadm : a ∈ cfg.Roles.Admins) :
    (cmdAdd session cfg context).err ≠ none ∧
    (cmdAdd session cfg context).config = cfg ∧
    (∀ (roles : List Role) (pre post : List GoString),
      canFindAny context.origin.Roles cfg.Roles.Admins = true →
      session.GuildRoles context.msgcontext.GuildID = .ok roles →
      context.params = pre ++ a :: post →
      (∀ x, x ∈ pre → findRoleById x roles ≠ none) →
      findRoleById a roles ≠ none →
      (cmdAdd session cfg context).err
        = some (GoError.errorsNew (bytes "Sorry " ++ getDisplayName context.origin ++
            bytes ", adding an admin role as settable is a dangerous operation; and thus is not permitted."))) := by
  have herr : (cmdAdd session cfg context).err ≠ none := by
    intro h
    exact (cmdAdd_success_config session cfg context h).2 a hmem hadm
  refine ⟨herr, ?_, ?_⟩
  · rcases cmdAdd_config session cfg context with h | h
    · exact h
    · exact absurd h.1 herr
  · intro roles pre post hinv hroles hsplit hpre ha
    have hloop := cmdAddLoop_dangerous cfg context roles pre post a []
      (fun x hx => Option.isSome_iff_ne_none.2 (hpre x hx)) (Option.isSome_iff_ne_none.2 ha) hadm
    unfold cmdAdd
    simp only [hinv, if_true, hroles, hsplit]
    cases hl : cmdAddLoop cfg context roles (pre ++ a :: post) [] with
    | mk e calls =>
      rw [hl] at hloop
      simp only at hloop
      subst hloop
      rfl

/-- C1, the spec's example: admin ids {A}, an admin invoker and params [B, A]
with B a guild role id: the dangerous-operation error, allow-list unchanged. -/
theorem cmdAdd_admin_id_rejected_witness :
    (cmdAdd (okSession adminMember guildRoles) sampleConfig
        (contextOf adminMember [bytes "B", bytes "A"])).err
      = some (GoError.errorsNew (dangerousMsg (bytes "Luna"))) ∧
    (cmdAdd (okSession adminMember guildRoles) sampleConfig
        (contextOf adminMember [bytes "B", bytes "A"])).config.Roles.Allowed = [bytes "R1"] := by
  have h := cmdAdd_admin_id_rejected (okSession adminMember guildRoles) sampleConfig
    (contextOf adminMember [bytes "B", bytes "A"]) (bytes "A") (by decide) (by decide)
  refine ⟨?_, ?_⟩
  · exact h.2.2 guildRoles [bytes "B"] [] (by decide) rfl rfl (by decide) (by decide)
  · rw [h.2.1]; rfl

/-! ## C2: the allow-list never meets the admin ids -/

/-- C2.  Every handler of the registry preserves the invariant that no id of
the allow-list is an admin role id, whatever the session, the invoker and the
arguments. -/
theorem handlers_keep_allowed_off_admins (key : GoString) (command : Command)
    (session : Session) (cfg : Config) (context : CmdContext)
    (hreg : (key, command) ∈ CmdMap) (hinv : allowedAvoidsAdmins cfg) :
    allowedAvoidsAdmins (command session cfg context).config := by
  have hcases : command = cmdRoles ∨ command = cmdAdd ∨ command = cmdHelp ∨ command = cmdList := by
    simp only [CmdMap, List.mem_cons, Prod.mk.injEq, List.mem_singleton, List.mem_nil_iff,
      or_false] at hreg
    rcases hreg with h | h | h | h | h | h
    · exact Or.inl h.2
    · exact Or.inl h.2
    · exact Or.inl h.2
    · exact Or.inr (Or.inl h.2)
    · exact Or.inr (Or.inr (Or.inl h.2))
    · exact Or.inr (Or.inr (Or.inr h.2))
  rcases hcases with h | h | h | h
  · subst h
    have hc : (cmdRoles session cfg context).config = cfg := by
      unfold cmdRoles
      cases session.Guild context.msgcontext.GuildID <;> rfl
    rw [hc]; exact hinv
  · subst h
    rcases cmdAdd_config session cfg context with hc | ⟨_, hc, hparams⟩
    · rw [hc]; exact hinv
    · rw [hc]
      intro x hx
      simp only [appendAllowed, List.mem_append] at hx
      rcases hx with hx | hx
      · exact hinv x hx
      · exact hparams x hx
  · subst h
    exact hinv
  · subst h
    have hc : (cmdList session cfg context).config = cfg := by
      unfold cmdList
      cases session.GuildRoles context.origin.GuildID <;> rfl
    rw [hc]; exact hinv

/-- C2 at a run that does change the allow-list: an admin registers B and R2. -/
theorem handlers_keep_allowed_off_admins_witness :
    (cmdAdd (okSession adminMember guildRoles) sampleConfig
        (contextOf adminMember [bytes "B", bytes "R2"])).config.Roles.Allowed
      = [bytes "R1", bytes "B", bytes "R2"] ∧
    allowedAvoidsAdmins (cmdAdd (okSession adminMember guildRoles) sampleConfig
        (contextOf adminMember [bytes "B", bytes "R2"])).config :=
  ⟨by decide,
   handlers_keep_allowed_off_admins (bytes "addrole") cmdAdd (okSession adminMember guildRoles)
     sampleConfig (contextOf adminMember [bytes "B", bytes "R2"])
     (by simp [CmdMap]) (by decide)⟩

/-! ## C3: `cmdAdd` is for admins only -/

/-- C3.  `canFindAny` is false exactly when its two lists have no common
element; and for an invoker none of whose role ids is an admin role id,
`cmdAdd` returns the permission-denied error, makes no call and leaves the
configuration unchanged, for every argument list. -/
theorem cmdAdd_denied_without_admin_role (session : Session) (cfg : Config)
    (context : CmdContext)
    (hno : ∀ x, x ∈ context.origin.Roles → x ∉ cfg.Roles.Admins) :
    (∀ items arr : List GoString, canFindAny items arr = false ↔ ∀ x, x ∈ items → x ∉ arr) ∧
    (cmdAdd session cfg context).err
      = some (GoError.errorsNew (bytes "I'm sorry " ++ getDisplayName context.origin ++
          bytes ", I'm afraid I can't do that.")) ∧
    (cmdAdd session cfg context).config = cfg ∧
    (cmdAdd session cfg context).calls = [] := by
  have h : canFindAny context.origin.Roles cfg.Roles.Admins = false :=
    (canFindAny_false_iff _ _).2 hno
  refine ⟨canFindAny_false_iff, ?_, ?_, ?_⟩ <;> simp [cmdAdd, h, deniedMsg]

/-- C3 at a member without roles who tries to register R2. -/
theorem cmdAdd_denied_without_admin_role_witness :
    (cmdAdd (okSession plainMember guildRoles) sampleConfig
        (contextOf plainMember [bytes "R2"])).err
      = some (GoError.errorsNew (bytes "I'm sorry kit, I'm afraid I can't do that.")) ∧
    (cmdAdd (okSession plainMember guildRoles) sampleConfig
        (contextOf plainMember [bytes "R2"])).config = sampleConfig :=
  have h := cmdAdd_denied_without_admin_role (okSession plainMember guildRoles) sampleConfig
    (contextOf plainMember [bytes "R2"]) (by decide)
  ⟨h.2.1.trans (by decide), h.2.2.1⟩

/-! ## C4: `cmdRoles` stops at the first argument that fails -/

theorem cmdRolesLoop_acc (cfg : Config) (context : CmdContext) (roles : List Role)
    (ps : List GoString) (acc : List Call) :
    cmdRolesLoop cfg context roles ps acc
      = ((cmdRolesLoop cfg context roles ps []).1,
          acc ++ (cmdRolesLoop cfg context roles ps []).2) := by
  induction ps generalizing acc with
  | nil => simp [cmdRolesLoop]
  | cons arg rest ih =>
    cases hf : findRoleByName arg roles with
    | none => simp [cmdRolesLoop, hf]
    | some role =>
      by_cases ha : canFind role.ID cfg.Roles.Allowed = true
      · by_cases ho : canFind role.ID context.origin.Roles = true
        · simp only [cmdRolesLoop, hf, ha, ho, if_true, Bool.not_true, Bool.false_eq_true,
            if_false]
          rw [ih (acc ++ _), ih ([] ++ _)]
          simp
        · simp only [Bool.not_eq_true] at ho
          simp only [cmdRolesLoop, hf, ha, ho, if_true, Bool.not_false]
          rw [ih (acc ++ _), ih ([] ++ _)]
          simp
      · simp [cmdRolesLoop, hf, ha]

theorem cmdRolesLoop_cons_ok (cfg : Config) (context : CmdContext) (roles : List Role)
    (arg : GoString) (rest : List GoString) (role : Role)
    (hf : findRoleByName arg roles = some role) (ha : role.ID ∈ cfg.Roles.Allowed) :
    cmdRolesLoop cfg context roles (arg :: rest) []
      = ((cmdRolesLoop cfg context roles rest []).1,
          toggleCall context role :: (cmdRolesLoop cfg context roles rest []).2) := by
  have hc : canFind role.ID cfg.Roles.Allowed = true := (canFind_iff _ _).2 ha
  by_cases ho : role.ID ∈ context.origin.Roles
  · have ho2 : canFind role.ID context.origin.Roles = true := (canFind_iff _ _).2 ho
    simp only [cmdRolesLoop, hf, hc, ho2, if_true, Bool.not_true, Bool.false_eq_true, if_false]
    rw [cmdRolesLoop_acc]
    simp [toggleCall, ho]
  · have ho2 : canFind role.ID context.origin.Roles = false := (canFind_false_iff _ _).2 ho
    simp only [cmdRolesLoop, hf, hc, ho2, if_true, Bool.not_false]
    rw [cmdRolesLoop_acc]
    simp [toggleCall, ho]

theorem cmdRolesLoop_cons_bad (cfg : Config) (context : CmdContext) (roles : List Role)
    (arg : GoString) (rest : List GoString)
    (hbad : resolvesAllowed cfg roles arg = false) :
    cmdRolesLoop cfg context roles (arg :: rest) []
      = (some (GoError.errorsNew
            (if findRoleByName arg roles = none then
              roleNotFoundMsg (getDisplayName context.origin) arg
            else deniedMsg (getDisplayName context.origin))), []) := by
  cases hf : findRoleByName arg roles with
  | none => simp [cmdRolesLoop, hf]
  | some role =>
    have hc : canFind role.ID cfg.Roles.Allowed = false := by
      rw [canFind_false_iff]
      simpa [resolvesAllowed, hf] using hbad
    simp [cmdRolesLoop, hf, hc]

theorem resolvesAllowed_iff (cfg : Config) (roles : List Role) (arg : GoString) :
    resolvesAllowed cfg roles arg = true ↔
      ∃ role, findRoleByName arg roles = some role ∧ role.ID ∈ cfg.Roles.Allowed := by
  cases hf : findRoleByName arg roles with
  | none => simp [resolvesAllowed, hf]
  | some role => simp [resolvesAllowed, hf]

theorem cmdRolesLoop_spec (cfg : Config) (context : CmdContext) (roles : List Role)
    (ps : List GoString) :
    List.Forall₂
      (fun arg call => ∃ role, findRoleByName arg roles = some role ∧
        role.ID ∈ cfg.Roles.Allowed ∧ call = toggleCall context role)
      (ps.takeWhile (resolvesAllowed cfg roles)) (cmdRolesLoop cfg context roles ps []).2 ∧
    (cmdRolesLoop cfg context roles ps []).1
      = (ps.find? (fun a => !resolvesAllowed cfg roles a)).map (fun arg =>
          GoError.errorsNew
            (if findRoleByName arg roles = none then
              roleNotFoundMsg (getDisplayName context.origin) arg
            else deniedMsg (getDisplayName context.origin))) := by
  induction ps with
  | nil => simp [cmdRolesLoop]
  | cons arg rest ih =>
    by_cases hok : resolvesAllowed cfg roles arg = true
    · obtain ⟨role, hf, ha⟩ := (resolvesAllowed_iff cfg roles arg).1 hok
      rw [cmdRolesLoop_cons_ok cfg context roles arg rest role hf ha]
      simp only [List.takeWhile_cons, hok, if_true, List.find?_cons, Bool.not_true]
      exact ⟨List.Forall₂.cons ⟨role, hf, ha, rfl⟩ ih.1, ih.2⟩
    · simp only [Bool.not_eq_true] at hok
      rw [cmdRolesLoop_cons_bad cfg context roles arg rest hok]
      simp [List.takeWhile_cons, hok, List.find?_cons]

/-- C4 (as stated, refuted).  The guild fetch failing: with no argument at
all, and so no failing argument, `cmdRoles` returns the platform's error; and
with the single argument He/Him, the name of the allow-listed guild role R1,
it makes no call and returns the same error, which is neither role-not-found
nor permission-denied. -/
theorem cmdRoles_guild_fetch_fails :
    ((contextOf plainMember []).params = [] ∧
      (cmdRoles (noGuildSession plainMember guildRoles) sampleConfig
          (contextOf plainMember [])).err
        = some (GoError.platform (bytes "HTTP 500"))) ∧
    (resolvesAllowed sampleConfig guildRoles (bytes "He/Him") = true ∧
      (cmdRoles (noGuildSession plainMember guildRoles) sampleConfig
          (contextOf plainMember [bytes "He/Him"])).calls = [] ∧
      (cmdRoles (noGuildSession plainMember guildRoles) sampleConfig
          (contextOf plainMember [bytes "He/Him"])).err
        = some (GoError.platform (bytes "HTTP 500"))) := by
  decide

/-- C4 (amended).  When the guild is fetched, `cmdRoles` makes one call for each
argument that precedes the first argument which does not resolve by name to an
allow-listed guild role, in order, and no other call; each call adds or
removes, for the invoker in the message's guild, the allow-listed role the
argument resolves to.  It returns an error exactly when such a failing
argument exists: role-not-found when the first one does not resolve,
permission-denied when it resolves to a role outside the allow-list. -/
theorem cmdRoles_stops_at_first_failure (session : Session) (cfg : Config)
    (context : CmdContext) (guild : Guild)
    (hguild : session.Guild context.msgcontext.GuildID = .ok guild) :
    List.Forall₂
      (fun arg call => ∃ role, findRoleByName arg guild.Roles = some role ∧
        role.ID ∈ cfg.Roles.Allowed ∧
        call = if role.ID ∈ context.origin.Roles then
            Call.GuildMemberRoleRemove context.msgcontext.GuildID context.origin.User.ID role.ID
          else
            Call.GuildMemberRoleAdd context.msgcontext.GuildID context.origin.User.ID role.ID)
      (context.params.takeWhile (resolvesAllowed cfg guild.Roles))
      (cmdRoles session cfg context).calls ∧
    ((cmdRoles session cfg context).err ≠ none ↔
      ∃ arg, arg ∈ context.params ∧ resolvesAllowed cfg guild.Roles arg = false) ∧
    (∀ arg, context.params.find? (fun a => !resolvesAllowed cfg guild.Roles a) = some arg →
      (cmdRoles session cfg context).err
        = some (GoError.errorsNew
            (if findRoleByName arg guild.Roles = none then
              bytes "Sorry " ++ getDisplayName context.origin ++
                bytes ", I could not find the role " ++ arg ++ bytes "!"
            else
              bytes "I'm sorry " ++ getDisplayName context.origin ++
                bytes ", I'm afraid I can't do that."))) := by
  have hspec := cmdRolesLoop_spec cfg context guild.Roles context.params
  have hcalls : (cmdRoles session cfg context).calls
      = (cmdRolesLoop cfg context guild.Roles context.params []).2 := by
    simp [cmdRoles, hguild]
  have herr : (cmdRoles session cfg context).err
      = (cmdRolesLoop cfg context guild.Roles context.params []).1 := by
    simp [cmdRoles, hguild]
  refine ⟨?_, ?_, ?_⟩
  · rw [hcalls]; exact hspec.1
  · rw [herr, hspec.2]
    constructor
    · intro h
      cases hfind : context.params.find? (fun a => !resolvesAllowed cfg guild.Roles a) with
      | none => simp [hfind] at h
      | some arg =>
        refine ⟨arg, List.mem_of_find?_eq_some hfind, ?_⟩
        simpa using List.find?_some hfind
    · rintro ⟨arg, hmem, hbad⟩
      cases hfind : context.params.find? (fun a => !resolvesAllowed cfg guild.Roles a) with
      | none =>
        have := List.find?_eq_none.1 hfind arg hmem
        simp [hbad] at this
      | some b => simp
  · intro arg hfind
    rw [herr, hspec.2, hfind]
    rfl

/-- C4 at the arguments [He/Him, Neuro, She/Her] with allow-list [R1]: one
addition, for R1, then permission denied at Neuro; She/Her is not reached. -/
theorem cmdRoles_stops_at_first_failure_witness :
    (cmdRoles (okSession plainMember guildRoles) sampleConfig
        (contextOf plainMember [bytes "He/Him", bytes "Neuro", bytes "She/Her"])).calls
      = [Call.GuildMemberRoleAdd (bytes "g") (bytes "u2") (bytes "R1")] ∧
    (cmdRoles (okSession plainMember guildRoles) sampleConfig
        (contextOf plainMember [bytes "He/Him", bytes "Neuro", bytes "She/Her"])).err
      = some (GoError.errorsNew (deniedMsg (bytes "kit"))) :=
  have h := cmdRoles_stops_at_first_failure (okSession plainMember guildRoles) sampleConfig
    (contextOf plainMember [bytes "He/Him", bytes "Neuro", bytes "She/Her"])
    { Roles := guildRoles } rfl
  ⟨by decide, (h.2.2 (bytes "Neuro") (by decide)).trans (by decide)⟩

/-! ## C5 and C10: toggling -/

theorem cmdRoles_single (session : Session) (cfg : Config) (context : CmdContext)
    (guild : Guild) (name : GoString) (role : Role)
    (hparams : context.params = [name])
    (hguild : session.Guild context.msgcontext.GuildID = .ok guild)
    (hres : findRoleByName name guild.Roles = some role)
    (hallowed : role.ID ∈ cfg.Roles.Allowed) :
    (cmdRoles session cfg context).err = none ∧
    (cmdRoles session cfg context).calls = [toggleCall context role] := by
  have hloop := cmdRolesLoop_cons_ok cfg context guild.Roles name [] role hres hallowed
  have hnil : cmdRolesLoop cfg context guild.Roles [] [] = (none, []) := rfl
  rw [hnil] at hloop
  unfold cmdRoles
  rw [hguild, hparams]
  simp only []
  rw [hloop]
  exact ⟨rfl, rfl⟩

theorem membershipAfter_single (session : Session) (cfg : Config) (message : MessageCreate)
    (origin : Member) (guild : Guild) (name : GoString) (role : Role)
    (hguild : session.Guild message.GuildID = .ok guild)
    (hres : findRoleByName name guild.Roles = some role)
    (hallowed : role.ID ∈ cfg.Roles.Allowed) :
    membershipAfter session cfg message origin [name]
      = if role.ID ∈ origin.Roles then origin.Roles.filter (fun x => x ≠ role.ID)
        else origin.Roles ++ [role.ID] := by
  have hs := cmdRoles_single session cfg
    { params := [name], msgcontext := message, origin := origin } guild name role rfl
    hguild hres hallowed
  unfold membershipAfter
  rw [hs.2]
  by_cases ho : role.ID ∈ origin.Roles
  · simp [toggleCall, ho, applyCalls, applyCall]
  · simp [toggleCall, ho, applyCalls, applyCall]

/-- C5.  When the guild is fetched and `name` resolves to an allow-listed
role, two runs of `cmdRoles` with the single argument `name`, the second
seeing the invoker with the membership the first left, both succeed and leave
the invoker with the same set of role ids as before. -/
theorem cmdRoles_twice_restores_membership (session : Session) (cfg : Config)
    (message : MessageCreate) (origin : Member) (guild : Guild) (name : GoString) (role : Role)
    (hguild : session.Guild message.GuildID = .ok guild)
    (hres : findRoleByName name guild.Roles = some role)
    (hallowed : role.ID ∈ cfg.Roles.Allowed) :
    (cmdRoles session cfg { params := [name], msgcontext := message, origin := origin }).err
      = none ∧
    (cmdRoles session cfg { params := [name], msgcontext := message, origin :=
        { origin with Roles := membershipAfter session cfg message origin [name] } }).err
      = none ∧
    (role.ID ∈ membershipAfter session cfg message origin [name] ↔ role.ID ∉ origin.Roles) ∧
    ∀ x, x ∈ membershipAfter session cfg message
          { origin with Roles := membershipAfter session cfg message origin [name] } [name]
        ↔ x ∈ origin.Roles := by
  have herr : ∀ o : Member,
      (cmdRoles session cfg { params := [name], msgcontext := message, origin := o }).err
        = none := by
    intro o
    exact (cmdRoles_single session cfg
      { params := [name], msgcontext := message, origin := o } guild name role rfl
      hguild hres hallowed).1
  have h1 := membershipAfter_single session cfg message origin guild name role hguild hres hallowed
  have h2 := membershipAfter_single session cfg message
    { origin with Roles := membershipAfter session cfg message origin [name] } guild name role
    hguild hres hallowed
  refine ⟨herr _, herr _, ?_, ?_⟩
  · rw [h1]
    by_cases ho : role.ID ∈ origin.Roles <;> simp [ho]
  · intro x
    rw [h2]
    simp only [h1]
    by_cases ho : role.ID ∈ origin.Roles
    · simp only [ho, if_true, List.mem_filter, ne_eq, decide_not, Bool.not_eq_true',
        decide_eq_false_iff_not, not_true_eq_false, and_false, if_false, List.mem_append,
        List.mem_singleton]
      constructor
      · rintro (h | h)
        · exact h.1
        · rw [h]; exact ho
      · intro h
        by_cases hx : x = role.ID
        · exact Or.inr hx
        · exact Or.inl ⟨h, hx⟩
    · simp only [ho, if_false, List.mem_append, List.mem_singleton, or_true, if_true,
        List.mem_filter, ne_eq, decide_not, Bool.not_eq_true', decide_eq_false_iff_not]
      constructor
      · rintro ⟨h | h, hne⟩
        · exact h
        · exact absurd h hne
      · intro h
        exact ⟨Or.inl h, fun e => ho (e ▸ h)⟩

/-- C5 at a member without roles and the name He/Him (role R1, allow-listed):
the first run leaves [R1], the second leaves no role. -/
theorem cmdRoles_twice_restores_membership_witness :
    membershipAfter (okSession plainMember guildRoles) sampleConfig
        (messageOf plainMember.User []) plainMember [bytes "He/Him"] = [bytes "R1"] ∧
    membershipAfter (okSession plainMember guildRoles) sampleConfig
        (messageOf plainMember.User [])
        { plainMember with Roles := (membershipAfter (okSession plainMember guildRoles)
            sampleConfig (messageOf plainMember.User []) plainMember [bytes "He/Him"]) }
        [bytes "He/Him"] = [] :=
  ⟨by decide,
   List.eq_nil_iff_forall_not_mem.2 (fun x hx => List.not_mem_nil x
     (((cmdRoles_twice_restores_membership (okSession plainMember guildRoles) sampleConfig
       (messageOf plainMember.User []) plainMember { Roles := guildRoles } (bytes "He/Him")
       { ID := bytes "R1", Name := bytes "He/Him" } rfl (by decide) (by decide)).2.2.2 x).1 hx))⟩

theorem applyCalls_cons (g u : GoString) (m : List GoString) (c : Call) (cs : List Call) :
    applyCalls g u m (c :: cs) = applyCalls g u (applyCall g u m c) cs := rfl

theorem applyCall_toggleCall (context : CmdContext) (role : Role) (m : List GoString)
    (hagree : role.ID ∈ m ↔ role.ID ∈ context.origin.Roles) :
    applyCall context.msgcontext.GuildID context.origin.User.ID m (toggleCall context role)
      = if role.ID ∈ m then m.filter (fun x => x ≠ role.ID) else m ++ [role.ID] := by
  by_cases ho : role.ID ∈ context.origin.Roles
  · have hm : role.ID ∈ m := hagree.2 ho
    simp [toggleCall, ho, hm, applyCall]
  · have hm : role.ID ∉ m := fun h => ho (hagree.1 h)
    simp [toggleCall, ho, hm, applyCall]

theorem mem_toggled_of_ne (m : List GoString) (r x : GoString) (hne : x ≠ r) :
    x ∈ (if r ∈ m then m.filter (fun y => y ≠ r) else m ++ [r]) ↔ x ∈ m := by
  by_cases hr : r ∈ m
  · simp [hr, hne]
  · simp [hr, hne]

theorem cmdRolesLoop_toggleInTurn (cfg : Config) (context : CmdContext) (roles : List Role)
    (ps : List GoString)
    (hall : ∀ arg, arg ∈ ps → resolvesAllowed cfg roles arg = true)
    (hnodup : (ps.map (resolvedId roles)).Nodup)
    (m : List GoString)
    (hagree : ∀ arg, arg ∈ ps → ∀ role, findRoleByName arg roles = some role →
      (role.ID ∈ m ↔ role.ID ∈ context.origin.Roles)) :
    applyCalls context.msgcontext.GuildID context.origin.User.ID m
        (cmdRolesLoop cfg context roles ps []).2
      = toggleInTurn m (ps.filterMap (resolvedId roles)) := by
  induction ps generalizing m with
  | nil => rfl
  | cons arg rest ih =>
    obtain ⟨role, hf, ha⟩ :=
      (resolvesAllowed_iff cfg roles arg).1 (hall arg (List.mem_cons_self arg rest))
    have hid : resolvedId roles arg = some role.ID := by simp [resolvedId, hf]
    rw [cmdRolesLoop_cons_ok cfg context roles arg rest role hf ha]
    simp only [applyCalls_cons, List.filterMap_cons, hid, toggleInTurn]
    rw [applyCall_toggleCall context role m (hagree arg (List.mem_cons_self arg rest) role hf)]
    simp only [List.map_cons, List.nodup_cons] at hnodup
    have hstep := ih (fun a h => hall a (List.mem_cons_of_mem arg h)) hnodup.2
      (if role.ID ∈ m then m.filter (fun x => x ≠ role.ID) else m ++ [role.ID])
    unfold toggleRole
    apply hstep
    intro arg2 hmem role2 hf2
    have hne : role2.ID ≠ role.ID := by
      intro e
      apply hnodup.1
      have h2 : resolvedId roles arg2 = some role.ID := by simp [resolvedId, hf2, e]
      rw [hid, ← h2]
      exact List.mem_map_of_mem _ hmem
    rw [mem_toggled_of_ne m role.ID role2.ID hne]
    exact hagree arg2 (List.mem_cons_of_mem arg hmem) role2 hf2

/-! ## C10: several arguments in one invocation -/

/-- C10 (as stated, refuted).  A member without roles names He/Him twice in
one invocation; both arguments resolve to the allow-listed role R1.  Both are
decided against the membership fetched before the invocation, so the role is
added twice and the member ends with R1, whereas toggling R1 and then R1
again, each toggle on the membership the previous one left, adds it and then
removes it. -/
theorem cmdRoles_same_role_twice :
    (∀ arg, arg ∈ [bytes "He/Him", bytes "He/Him"] →
      resolvesAllowed sampleConfig guildRoles arg = true) ∧
    [bytes "He/Him", bytes "He/Him"].filterMap (resolvedId guildRoles)
      = [bytes "R1", bytes "R1"] ∧
    (cmdRoles (okSession plainMember guildRoles) sampleConfig
        (contextOf plainMember [bytes "He/Him", bytes "He/Him"])).calls
      = [Call.GuildMemberRoleAdd (bytes "g") (bytes "u2") (bytes "R1"),
         Call.GuildMemberRoleAdd (bytes "g") (bytes "u2") (bytes "R1")] ∧
    membershipAfter (okSession plainMember guildRoles) sampleConfig
        (messageOf plainMember.User []) plainMember [bytes "He/Him", bytes "He/Him"]
      = [bytes "R1"] ∧
    toggleInTurn plainMember.Roles [bytes "R1", bytes "R1"] = [] := by
  decide

/-- C10 (amended).  When the guild is fetched and the arguments of one
invocation of `cmdRoles` resolve to allow-listed roles that are pairwise
distinct, the invocation succeeds, makes one call for each argument, and the
invoker's final membership is the one reached by toggling the roles the
arguments resolve to one after another (remove the role if held, add it if
not), each toggle applied to the membership the previous one left. -/
theorem cmdRoles_distinct_roles_toggle_in_turn (session : Session) (cfg : Config)
    (context : CmdContext) (guild : Guild)
    (hguild : session.Guild context.msgcontext.GuildID = .ok guild)
    (hall : ∀ arg, arg ∈ context.params → resolvesAllowed cfg guild.Roles arg = true)
    (hnodup : (context.params.map (resolvedId guild.Roles)).Nodup) :
    (cmdRoles session cfg context).err = none ∧
    (cmdRoles session cfg context).calls.length = context.params.length ∧
    applyCalls context.msgcontext.GuildID context.origin.User.ID context.origin.Roles
        (cmdRoles session cfg context).calls
      = toggleInTurn context.origin.Roles
          (context.params.filterMap (resolvedId guild.Roles)) := by
  have hspec := cmdRolesLoop_spec cfg context guild.Roles context.params
  have hcalls : (cmdRoles session cfg context).calls
      = (cmdRolesLoop cfg context guild.Roles context.params []).2 := by
    simp [cmdRoles, hguild]
  have herr : (cmdRoles session cfg context).err
      = (cmdRolesLoop cfg context guild.Roles context.params []).1 := by
    simp [cmdRoles, hguild]
  have htake : context.params.takeWhile (resolvesAllowed cfg guild.Roles) = context.params := by
    rw [List.takeWhile_eq_self_iff]
    exact fun a ha => hall a ha
  refine ⟨?_, ?_, ?_⟩
  · rw [herr, hspec.2]
    have hnone : context.params.find? (fun a => !resolvesAllowed cfg guild.Roles a) = none := by
      rw [List.find?_eq_none]
      intro a ha
      simp [hall a ha]
    rw [hnone]; rfl
  · rw [hcalls]
    have hlen := hspec.1.length_eq
    rw [htake] at hlen
    exact hlen.symm
  · rw [hcalls]
    exact cmdRolesLoop_toggleInTurn cfg context guild.Roles context.params hall hnodup
      context.origin.Roles (fun _ _ _ _ => Iff.rfl)

/-- C10 at the arguments [He/Him, She/Her] with allow-list [R1, R2] and a
member who holds R1: R1 is removed and R2 added, which leaves [R2]. -/
theorem cmdRoles_distinct_roles_toggle_in_turn_witness :
    applyCalls (bytes "g") (bytes "u2") [bytes "R1"]
        (cmdRoles (okSession plainMember guildRoles)
          (appendAllowed sampleConfig [bytes "R2"])
          (contextOf { plainMember with Roles := [bytes "R1"] }
            [bytes "He/Him", bytes "She/Her"])).calls
      = [bytes "R2"] ∧
    toggleInTurn [bytes "R1"] [bytes "R1", bytes "R2"] = [bytes "R2"] :=
  have h := cmdRoles_distinct_roles_toggle_in_turn (okSession plainMember guildRoles)
    (appendAllowed sampleConfig [bytes "R2"])
    (contextOf { plainMember with Roles := [bytes "R1"] } [bytes "He/Him", bytes "She/Her"])
    { Roles := guildRoles } rfl (by decide) (by decide)
  ⟨h.2.2.trans (by decide), by decide⟩

/-! ## C9: `cmdList` -/

theorem cmdListLoop_eq (cfg : Config) (roles : List Role) (output : GoString) :
    cmdListLoop cfg roles output
      = output ++ joinLines
          ((roles.filter (fun role => decide (role.ID ∈ cfg.Roles.Allowed))).map
            (fun role => role.Name)) := by
  induction roles generalizing output with
  | nil => simp [cmdListLoop, joinLines]
  | cons role rest ih =>
    by_cases h : role.ID ∈ cfg.Roles.Allowed
    · have hc : canFind role.ID cfg.Roles.Allowed = true := (canFind_iff _ _).2 h
      simp [cmdListLoop, hc, h, ih, joinLines, List.append_assoc]
    · have hc : canFind role.ID cfg.Roles.Allowed = false := (canFind_false_iff _ _).2 h
      simp [cmdListLoop, hc, h, ih]

/-- C9.  When the role list is fetched, `cmdList` returns no error and the
reply is the opening fence and a line feed, then the names of the guild roles
whose id is in the allow-list, in guild-role order, one per line, then the
closing fence; the name of no other role is put in. -/
theorem cmdList_lists_allowed_roles (session : Session) (cfg : Config) (context : CmdContext)
    (roles : List Role)
    (hroles : session.GuildRoles context.origin.GuildID = .ok roles) :
    (cmdList session cfg context).err = none ∧
    (cmdList session cfg context).output
      = bytes "```\n" ++
          joinLines ((roles.filter (fun role => decide (role.ID ∈ cfg.Roles.Allowed))).map
            (fun role => role.Name)) ++
          bytes "```" ∧
    (cmdList session cfg context).calls = [] ∧
    (cmdList session cfg context).config = cfg := by
  simp [cmdList, hroles, cmdListLoop_eq]

/-- C9, the spec's example: allowed [R1, R2] and guild roles R1 He/Him,
R2 She/Her, R3 Mod give a block with He/Him and She/Her and without Mod. -/
theorem cmdList_lists_allowed_roles_witness :
    (cmdList (okSession plainMember listExampleRoles) (appendAllowed sampleConfig [bytes "R2"])
        (contextOf plainMember [])).output
      = bytes "```\nHe/Him\nShe/Her\n```" :=
  (cmdList_lists_allowed_roles (okSession plainMember listExampleRoles)
    (appendAllowed sampleConfig [bytes "R2"]) (contextOf plainMember []) listExampleRoles
    rfl).2.1.trans (by decide)

/-! ## C7: `getCommand` -/

theorem Split_head (s : GoString) (sep : Nat) :
    ∃ more, Split s sep = s.takeWhile (fun b => b ≠ sep) :: more := by
  induction s with
  | nil => exact ⟨[], rfl⟩
  | cons c rest ih =>
    obtain ⟨more, hm⟩ := ih
    by_cases h : c = sep
    · exact ⟨Split rest sep, by simp [Split, h]⟩
    · exact ⟨more, by simp [Split, h, hm]⟩

/-- C7 (as stated, refuted).  With prefix `!` and the text `!help`, a line
feed, `me`, which starts with the prefix, `getCommand` returns `help`, the
line feed and `me`, where the first whitespace-delimited token without its
prefix is `help`.  With prefix `bot` and a space, and the text `bot help`,
which starts with the prefix, the slice is out of range and `getCommand`
returns nothing. -/
theorem getCommand_not_first_token :
    (HasPrefix (bytes "!help\nme") sampleConfig.CmdPrefix = true ∧
      getCommand sampleConfig (bytes "!help\nme") = some (bytes "help\nme") ∧
      specExtractCommand (bytes "!help\nme") sampleConfig.CmdPrefix = bytes "help") ∧
    (HasPrefix (bytes "bot help") (bytes "bot ") = true ∧
      getCommand { sampleConfig with CmdPrefix := bytes "bot " } (bytes "bot help") = none) := by
  decide

/-- C7 (amended).  For every prefix that holds no space and every text that
starts with the prefix, `getCommand` is defined and returns the text up to
its first space (all of it when it has none) with the prefix stripped from
its start. -/
theorem getCommand_first_space_token (cfg : Config) (rawText : GoString)
    (hstarts : HasPrefix rawText cfg.CmdPrefix = true)
    (hnospace : space ∉ cfg.CmdPrefix) :
    getCommand cfg rawText
      = some ((rawText.takeWhile (fun b => b ≠ space)).drop cfg.CmdPrefix.length) ∧
    cfg.CmdPrefix ++ (rawText.takeWhile (fun b => b ≠ space)).drop cfg.CmdPrefix.length
      = rawText.takeWhile (fun b => b ≠ space) := by
  have hp : cfg.CmdPrefix <+: rawText := by
    simpa [HasPrefix] using hstarts
  obtain ⟨rest, hrest⟩ := hp
  have hall : ∀ a, a ∈ cfg.CmdPrefix → (fun b => decide (b ≠ space)) a = true := by
    intro a ha
    have : a ≠ space := fun e => hnospace (e ▸ ha)
    simpa using this
  have htake : rawText.takeWhile (fun b => b ≠ space)
      = cfg.CmdPrefix ++ rest.takeWhile (fun b => b ≠ space) := by
    rw [← hrest]
    exact List.takeWhile_append_of_pos hall
  obtain ⟨more, hsplit⟩ := Split_head rawText space
  refine ⟨?_, ?_⟩
  · simp only [getCommand, hsplit, sliceFrom]
    rw [if_pos]
    rw [htake]
    simp
  · rw [htake]
    simp

/-- C7 at prefix `!` and the text `!role Neuro`: the token `role`. -/
theorem getCommand_first_space_token_witness :
    getCommand sampleConfig (bytes "!role Neuro") = some (bytes "role") :=
  (getCommand_first_space_token sampleConfig (bytes "!role Neuro") (by decide)
    (by decide)).1.trans (by decide)

/-! ## C6: the parameters passed to the handler -/

theorem buildParams_isSome (content cmd : GoString) :
    ∃ params, buildParams content cmd = some params := by
  unfold buildParams
  by_cases h : cmd.length + 2 < content.length
  · have hle : cmd.length + 2 ≤ content.length := Nat.le_of_lt h
    exact ⟨getParams (content.drop (cmd.length + 2)), by simp [h, sliceFrom, hle]⟩
  · exact ⟨[], by simp [h]⟩

/-- The parameter list agrees with the spec when the prefix is one byte long. -/
theorem buildParams_one_byte (content cmd pfx : GoString) (hlen : pfx.length = 1) :
    buildParams content cmd = some (specExtractParams content cmd pfx) := by
  unfold buildParams specExtractParams
  have e : pfx.length + cmd.length + 1 = cmd.length + 2 := by omega
  rw [e]
  by_cases h : cmd.length + 2 < content.length
  · have hle : cmd.length + 2 ≤ content.length := Nat.le_of_lt h
    have hn : ¬ content.length ≤ cmd.length + 2 := by omega
    simp [h, sliceFrom, hle, hn, getParams]
  · have hn : content.length ≤ cmd.length + 2 := by omega
    simp [h, hn]

/-- C6 at the prefix `!!` and the message `!!role Neuro`.  The message starts
with the prefix and `getCommand` returns `role`; the dispatcher drops
`len(cmd) + 2 = 6` bytes, not `len(prefix) + len(cmd) + 1 = 7`, so the handler
is passed an empty first parameter before `Neuro`, where the text after the
command token and one space, split on spaces, is the single parameter
`Neuro`. -/
theorem dispatchParams_two_byte_prefix :
    HasPrefix (bytes "!!role Neuro") (bytes "!!") = true ∧
    getCommand { sampleConfig with CmdPrefix := bytes "!!" } (bytes "!!role Neuro")
      = some (bytes "role") ∧
    dispatchParams { sampleConfig with CmdPrefix := bytes "!!" } (bytes "!!role Neuro")
      = some [[], bytes "Neuro"] ∧
    specExtractParams (bytes "!!role Neuro") (bytes "role") (bytes "!!") = [bytes "Neuro"] := by
  decide

/-! ## C8: a command that is not in the registry -/

theorem mapIndex_eq_none (m : List (GoString × Command)) (key : GoString)
    (h : key ∉ m.map Prod.fst) : mapIndex m key = none := by
  induction m with
  | nil => rfl
  | cons kv rest ih =>
    obtain ⟨k, v⟩ := kv
    simp only [List.map_cons, List.mem_cons, not_or] at h
    simp [mapIndex, h.1, ih h.2]

/-- C8 (as stated, refuted).  The message `!Dance now` comes from another
user, starts with the prefix, is sent in an allowed channel, and its command
token `Dance`, lower-cased, is no key of `CmdMap`; the fetch of the sender's
member record fails, and the dispatcher returns without a reply and without a
reaction. -/
theorem onCommand_member_fetch_fails :
    (messageOf plainMember.User (bytes "!Dance now")).Author.ID ≠ bytes "bot" ∧
    HasPrefix (messageOf plainMember.User (bytes "!Dance now")).Content sampleConfig.CmdPrefix
      = true ∧
    (messageOf plainMember.User (bytes "!Dance now")).ChannelID ∈ sampleConfig.BotChannels ∧
    getCommand sampleConfig (bytes "!Dance now") = some (bytes "Dance") ∧
    asciiLower (bytes "Dance") ∉ CmdMap.map Prod.fst ∧
    onCommand asciiLower (okSession plainMember guildRoles)
        (noMemberSession plainMember guildRoles) sampleConfig
        (messageOf plainMember.User (bytes "!Dance now"))
      = some { calls := [], config := sampleConfig, handler := none } := by
  decide

/-- C8 (amended).  The bot's own user and the sender's member record being fetched: for
a message from another user that starts with the prefix, in an allowed
channel, for which `getCommand` returns a token whose lower-casing is not a
key of `CmdMap`, the dispatcher makes exactly two calls, one reply, whose text
holds the token as typed between `Command` and `not found!`, and one cross
reaction on the message; it runs no handler and leaves the configuration
unchanged. -/
theorem onCommand_unknown_command (toLower : GoString → GoString) (discord session : Session)
    (cfg : Config) (message : MessageCreate) (meUser : User) (member : Member) (cmd : GoString)
    (hme : discord.User (bytes "@me") = .ok meUser)
    (hother : message.Author.ID ≠ meUser.ID)
    (hmember : session.GuildMember message.GuildID message.Author.ID = .ok member)
    (hstarts : HasPrefix message.Content cfg.CmdPrefix = true)
    (hchannel : message.ChannelID ∈ cfg.BotChannels)
    (hcmd : getCommand cfg message.Content = some cmd)
    (hunknown : toLower cmd ∉ CmdMap.map Prod.fst) :
    onCommand toLower discord session cfg message
      = some { calls :=
                 [Call.ChannelMessageSend message.ChannelID
                    (bytes "⚠️ `Command " ++ cmd ++ bytes " not found!`"),
                  Call.MessageReactionAdd message.ChannelID message.ID (bytes "❌")],
               config := cfg, handler := none } := by
  obtain ⟨params, hparams⟩ := buildParams_isSome message.Content cmd
  have hc : canFind message.ChannelID cfg.BotChannels = true := (canFind_iff _ _).2 hchannel
  have hidx := mapIndex_eq_none CmdMap (toLower cmd) hunknown
  have htext : warnOpen ++ CmdNotFoundError.1 ++ cmd ++ CmdNotFoundError.2 ++ warnClose
      = bytes "⚠️ `Command " ++ cmd ++ bytes " not found!`" := by
    have h1 : warnOpen ++ CmdNotFoundError.1 = bytes "⚠️ `Command " := by decide
    have h2 : CmdNotFoundError.2 ++ warnClose = bytes " not found!`" := by decide
    rw [h1, List.append_assoc, h2]
  unfold onCommand
  simp only [hme, hother, ne_eq, not_false_eq_true, if_true, hmember, hstarts, hc, Bool.not_true,
    Bool.false_eq_true, if_false, hcmd, hparams, hidx, htext]
  rfl

/-- C8 at the message `!Dance now` from another user in the bot channel. -/
theorem onCommand_unknown_command_witness :
    onCommand asciiLower (okSession plainMember guildRoles) (okSession plainMember guildRoles)
        sampleConfig (messageOf plainMember.User (bytes "!Dance now"))
      = some { calls :=
                 [Call.ChannelMessageSend (bytes "bots") (bytes "⚠️ `Command Dance not found!`"),
                  Call.MessageReactionAdd (bytes "bots") (bytes "m1") (bytes "❌")],
               config := sampleConfig, handler := none } :=
  (onCommand_unknown_command asciiLower (okSession plainMember guildRoles)
    (okSession plainMember guildRoles) sampleConfig (messageOf plainMember.User (bytes "!Dance now"))
    { ID := bytes "bot", Username := bytes "incbot" } plainMember (bytes "Dance")
    rfl (by decide) rfl (by decide) (by decide) (by decide) (by decide)).trans (by decide)

end Incbot
